import Mathlib

/-!
Verification of the conversation-persistence layer, the MCP routing layer and
the orchestration loop of a CLI AI coding assistant.

The persistence layer (`ConversationService`) and the MCP client layer
(`MCPService`) are embedded directly from the TypeScript source
(`src/services/conversation.service.ts`, `src/services/mcp.service.ts`,
`src/index.ts`).  The orchestration loop (`runTurn`) lives in the LangGraph
agent files that are not part of the sources at hand, so it is modelled from
the specification (section 4.1) and each such definition says so in its doc
comment.
-/

namespace CCClone

/-- A capability-call descriptor: the `{id, name, args}` record carried by an
assistant message's `tool_calls` metadata. -/
structure CapCall where
  id : String
  name : String
  args : String
  deriving DecidableEq, Repr

/-- The three-valued Prisma role enum (`USER | ASSISTANT | TOOL`) used by the
`Message` table. -/
inductive Role where
  | USER
  | ASSISTANT
  | TOOL
  deriving DecidableEq, Repr

/-- LangChain message values as they occur in this code base: `HumanMessage`,
`AIMessage` (optionally carrying `tool_calls`), `ToolMessage` (carrying
`tool_call_id` and optionally `name`), and any other `BaseMessage` subtype
(`SystemMessage`, `ChatMessage`, ...) which the services treat uniformly. -/
inductive BaseMessage where
  | human (content : String)
  | ai (content : String) (toolCalls : Option (List CapCall))
  | tool (content : String) (toolCallId : Option String) (name : Option String)
  | other (content : String)
  deriving DecidableEq, Repr

/-- `message instanceof AIMessage`. -/
def isAI : BaseMessage → Bool
  | .ai _ _ => true
  | _ => false

/-- `message instanceof ToolMessage`. -/
def isTool : BaseMessage → Bool
  | .tool _ _ _ => true
  | _ => false

/-- `message instanceof HumanMessage`. -/
def isHuman : BaseMessage → Bool
  | .human _ => true
  | _ => false

/-- `message.content` (already a string in every case this code constructs;
the `JSON.stringify` branch of `saveMessages` is the identity here). -/
def contentOf : BaseMessage → String
  | .human c => c
  | .ai c _ => c
  | .tool c _ _ => c
  | .other c => c

/-- `ConversationService.mapMessageRole`: the `instanceof` cascade of
conversation.service.ts lines 144-154, with the `USER` default fallback. -/
def mapMessageRole (message : BaseMessage) : Role :=
  if isHuman message then .USER
  else if isAI message then .ASSISTANT
  else if isTool message then .TOOL
  else .USER

/-- One row of the Prisma `Message` table as built by `saveMessages`:
role, content, and the metadata JSON with its three optional fields. -/
structure StoredMessage where
  role : Role
  content : String
  metaToolCalls : Option (List CapCall)
  metaToolCallId : Option String
  metaName : Option String
  deriving DecidableEq, Repr

/-- The record `saveMessages` builds for one message (conversation.service.ts
lines 61-75): role via `mapMessageRole`, content, and metadata whose fields
are populated only for `AIMessage` / `ToolMessage` instances. -/
def toMessageData (message : BaseMessage) : StoredMessage :=
  { role := mapMessageRole message
    content := contentOf message
    metaToolCalls := match message with | .ai _ tc => tc | _ => none
    metaToolCallId := match message with | .tool _ id _ => id | _ => none
    metaName := match message with | .tool _ _ n => n | _ => none }

/-- `ConversationService.saveMessages`: maps every message to its row and
hands the whole batch to `prisma.message.createMany` (lines 56-84). -/
def saveMessages (messages : List BaseMessage) : List StoredMessage :=
  messages.map toMessageData

/-- The `switch (msg.role)` of `getConversationMessages` (lines 178-194),
rebuilding a LangChain message from a stored row. -/
def decodeStored (msg : StoredMessage) : BaseMessage :=
  match msg.role with
  | .USER => .human msg.content
  | .ASSISTANT => .ai msg.content msg.metaToolCalls
  | .TOOL => .tool msg.content msg.metaToolCallId msg.metaName

/-- A storage-layer failure (a rejected Prisma query). -/
inductive DbError where
  | failure (msg : String)
  deriving DecidableEq, Repr

/-- The Prisma query of `getConversationMessages` lines 166-170: the
conversation's rows ordered `createdAt desc` (`db.reverse` of the
chronological log) limited to `limit` rows (`take`). -/
def queryRecentDesc (db : List StoredMessage) (limit : Nat) : List StoredMessage :=
  db.reverse.take limit

/-- `ConversationService.getConversationMessages` (lines 161-200): runs the
most-recent-first limited query, reverses it back to chronological order and
decodes each row; any storage error is swallowed and yields `[]`. -/
def getConversationMessages (db : Except DbError (List StoredMessage))
    (limit : Nat) : List BaseMessage :=
  match db with
  | .error _ => []
  | .ok msgs => ((queryRecentDesc msgs limit).reverse).map decodeStored

/-- The recent window itself (stored rows, chronological order) that
`getConversationMessages` decodes. -/
def recentWindow (db : List StoredMessage) (limit : Nat) : List StoredMessage :=
  (queryRecentDesc db limit).reverse

/-- The history limit hard-coded at the entry point (index.ts line 242). -/
def historyLimit : Nat := 10

/-- JavaScript `String.prototype.toLowerCase` restricted to the ASCII inputs
this code compares against. -/
def jsToLower (s : String) : String :=
  String.mk (s.data.map Char.toLower)

/-- The messages handed to `graph.invoke` as `initialState.messages`
(index.ts lines 239-247): the recent window of 10 plus the new user input. -/
def initialMessages (db : Except DbError (List StoredMessage))
    (input : String) : List BaseMessage :=
  getConversationMessages db historyLimit ++ [.human input]

/-- What `processUserInput` does with one line of input. -/
inductive CliOutcome where
  | exit
  | handledHelp
  | handledTools
  | ranAgent (messages : List BaseMessage)
  deriving DecidableEq, Repr

/-- `processUserInput` (index.ts lines 214-285): the three command
comparisons on the lower-cased input short-circuit; otherwise the agent graph
is invoked on the bounded history plus the new message. -/
def processUserInput (db : Except DbError (List StoredMessage))
    (input : String) : CliOutcome :=
  if jsToLower input = "/exit" then .exit
  else if jsToLower input = "/help" then .handledHelp
  else if jsToLower input = "/tools" then .handledTools
  else .ranAgent (initialMessages db input)

/-- A tool descriptor as returned by an MCP server's `listTools`. -/
structure ToolDesc where
  name : String
  deriving DecidableEq, Repr

/-- One entry of `MCPService.servers` (mcp.service.ts lines 4-10): the stored
server record.  `connected` models the presence of a live `client`;
`tools` is the optional cache filled only by a successful `listTools`;
`provides` models what the live client would answer to `client.listTools()`
(never consulted by `getServerForTool`). -/
structure MCPServer where
  name : String
  command : String
  args : List String
  connected : Bool
  tools : Option (List ToolDesc)
  provides : List ToolDesc
  deriving DecidableEq, Repr

/-- The `servers` map, in insertion order (JavaScript `Map` iterates in
insertion order). -/
abbrev ServerMap := List (String × MCPServer)

/-- `server.tools?.some((tool) => tool.name === toolName)` (mcp.service.ts
line 166): false when the cache was never filled. -/
def cachedHas (server : MCPServer) (toolName : String) : Bool :=
  match server.tools with
  | some ts => ts.any (fun t => t.name == toolName)
  | none => false

/-- `MCPService.getServerForTool` (lines 162-171): scan the stored servers
in order and return the first whose cached tool list contains the name,
else null. -/
def getServerForTool (servers : ServerMap) (toolName : String) : Option String :=
  match servers with
  | [] => none
  | (serverName, server) :: rest =>
      if cachedHas server toolName then some serverName
      else getServerForTool rest toolName

/-- `MCPService.connectServer` (lines 19-67) on success:
`this.servers.set(name, {name, command, args, client})` — note no `tools`
field, so the cache starts empty.  JavaScript `Map.set` replaces an existing
key in place (keeping its position and wiping the cached tools of a
reconnected server) and appends a new key at the end. -/
def connectServer (servers : ServerMap) (name command : String)
    (args : List String) (provides : List ToolDesc) : ServerMap :=
  if servers.any (fun p => p.1 = name) then
    servers.map (fun p =>
      if p.1 = name then
        (name, { name := name, command := command, args := args,
                 connected := true, tools := none, provides := provides })
      else p)
  else
    servers ++ [(name, { name := name, command := command, args := args,
                         connected := true, tools := none,
                         provides := provides })]

/-- Update the stored record for `name` in place. -/
def setServer (servers : ServerMap) (name : String) (server : MCPServer) :
    ServerMap :=
  servers.map (fun p => if p.1 = name then (p.1, server) else p)

/-- `MCPService.listTools` (lines 97-117): look the server up; if absent or
not connected the thrown error is caught and `[]` returned with no cache
write; otherwise the client's tools are returned and cached in
`server.tools`. -/
def listTools (servers : ServerMap) (serverName : String) :
    List ToolDesc × ServerMap :=
  match servers.find? (fun p => p.1 = serverName) with
  | none => ([], servers)
  | some (_, server) =>
      if server.connected then
        (server.provides,
         setServer servers serverName { server with tools := some server.provides })
      else ([], servers)

/-- `MCPService.callTool` (lines 136-157): look the server up; a missing or
disconnected server throws, and any client error is rethrown — the method
itself never swallows a failure. -/
def callTool (servers : ServerMap) (serverName _toolName : String)
    (callResult : Except String String) : Except String String :=
  match servers.find? (fun p => p.1 = serverName) with
  | none => .error ("Server " ++ serverName ++ " not connected")
  | some (_, server) =>
      if server.connected then callResult
      else .error ("Server " ++ serverName ++ " not connected")

end CCClone

namespace CCClone

/-- A message of the orchestration loop's data model (spec section 3):
role plus content, with call descriptors on assistant messages and a
correlation id on tool messages. -/
inductive Message where
  | user (text : String)
  | assistant (text : String) (calls : List CapCall)
  | tool (content : String) (callId : String) (name : String)
  deriving DecidableEq, Repr

/-- The role of a loop message. -/
def Message.role : Message → Role
  | .user _ => .USER
  | .assistant _ _ => .ASSISTANT
  | .tool _ _ _ => .TOOL

/-- The correlation id carried by a tool message. -/
def Message.callId? : Message → Option String
  | .tool _ id _ => some id
  | _ => none

/-- The generator's two-variant outcome (spec section 4.3). -/
inductive Outcome where
  | finalAnswer (text : String)
  | capabilityRequest (calls : List CapCall)
  deriving DecidableEq, Repr

/-- A turn-fatal generator failure (spec section 7): unreachable upstream or
an unparseable outcome. -/
inductive GenErr where
  | unreachable
  | unparseable
  deriving DecidableEq, Repr

/-- The loop's three states (spec section 4.1). -/
inductive LoopState where
  | GENERATING
  | AWAITING_TOOLS
  | DONE
  deriving DecidableEq, Repr

/-- Modelled from the spec: the state transition of section 4.1 out of
`GENERATING` — a final answer reaches `DONE`, a capability request moves to
`AWAITING_TOOLS`, and executing the pending calls returns to `GENERATING`. -/
def nextState : LoopState → Option Outcome → LoopState
  | .GENERATING, some (.finalAnswer _) => .DONE
  | .GENERATING, some (.capabilityRequest _) => .AWAITING_TOOLS
  | .AWAITING_TOOLS, _ => .GENERATING
  | s, _ => s

/-- Modelled from the spec: the tool message produced for one capability
call (spec section 4.1 step 2, missing source file src/agent/nodes.ts):
a gateway success puts the payload in the content, a gateway failure is
encoded in the content — never rethrown. -/
def encodeResult : Except String String → String
  | .ok payload => payload
  | .error reason => "Tool execution failed: " ++ reason

/-- Modelled from the spec: execute one pending call through the gateway and
wrap the result as a tool message correlated by the call's id. -/
def execCall (gw : CapCall → Except String String) (c : CapCall) : Message :=
  .tool (encodeResult (gw c)) c.id c.name

/-- Modelled from the spec: the messages appended for one
`CapabilityRequest{calls}` round — the assistant message carrying the
descriptors followed by one tool message per call, in request order. -/
def stepMessages (gw : CapCall → Except String String)
    (calls : List CapCall) : List Message :=
  .assistant "" calls :: calls.map (execCall gw)

/-- Modelled from the spec: `runTurn` (spec section 4.1, missing source
files src/agent/graph.ts and src/agent/nodes.ts).  `fuel` bounds the
unbounded generation/tool loop (`none` = the cap was hit).  The result is
the turn outcome (`ok` the produced messages, `error` a surfaced generator
failure), the persisted store after the turn, and the number of generation
calls made.  Each step's messages are appended to the store before the next
step begins: the assistant message of spec step 1 is persisted first, then
the tool messages of spec step 2 — persistence is never batched across
steps. -/
def runTurn (gen : List Message → Except GenErr Outcome)
    (gw : CapCall → Except String String) :
    Nat → List Message → List Message →
    Option (Except GenErr (List Message) × List Message × Nat)
  | 0, _, _ => none
  | fuel + 1, history, store =>
    match gen history with
    | .error e => some (.error e, store, 1)
    | .ok (.finalAnswer t) =>
        some (.ok [.assistant t []], store ++ [.assistant t []], 1)
    | .ok (.capabilityRequest calls) =>
        match runTurn gen gw fuel (history ++ stepMessages gw calls)
            (store ++ [.assistant "" calls] ++ calls.map (execCall gw)) with
        | none => none
        | some (.ok rest, st, n) =>
            some (.ok (stepMessages gw calls ++ rest), st, n + 1)
        | some (.error e, st, n) => some (.error e, st, n + 1)

/-- Modelled from the spec: the sequence of persisted-store snapshots at
every step boundary of the turn, starting with the pre-turn store.  A
capability round contributes two snapshots: one after the step-1 append of
the assistant message, one after the step-2 append of the executed tool
messages (the latter being the head of the recursive trace) — each step's
messages are durable before the next step begins. -/
def runStores (gen : List Message → Except GenErr Outcome)
    (gw : CapCall → Except String String) :
    Nat → List Message → List Message → List (List Message)
  | 0, _, store => [store]
  | fuel + 1, history, store =>
    match gen history with
    | .error _ => [store]
    | .ok (.finalAnswer t) => [store, store ++ [.assistant t []]]
    | .ok (.capabilityRequest calls) =>
        store :: (store ++ [.assistant "" calls]) ::
          runStores gen gw fuel (history ++ stepMessages gw calls)
            (store ++ [.assistant "" calls] ++ calls.map (execCall gw))

/-- `a` is an initial segment of `b`: everything in `a` sits in `b`, first,
in the same order. -/
def initSegOf {α : Type} (a b : List α) : Prop := ∃ t, a ++ t = b

/-- `a` is a final segment of `b`: `b` ends with exactly `a`. -/
def finalSegOf {α : Type} (a b : List α) : Prop := ∃ t, t ++ a = b

end CCClone

namespace CCClone

theorem initSegOf_refl {α : Type} (a : List α) : initSegOf a a := ⟨[], by simp⟩

theorem initSegOf_app {α : Type} (a t : List α) : initSegOf a (a ++ t) := ⟨t, rfl⟩

theorem initSegOf_trans {α : Type} {a b c : List α}
    (h1 : initSegOf a b) (h2 : initSegOf b c) : initSegOf a c := by
  obtain ⟨t1, rfl⟩ := h1
  obtain ⟨t2, rfl⟩ := h2
  exact ⟨t1 ++ t2, by rw [List.append_assoc]⟩

/-- C4: `getConversationMessages` decodes exactly the recent window — the at
most `limit` most recently created rows of the conversation, kept in
chronological order (a final segment of the chronological log) — and the
entry point feeds the generator exactly this window of 10 plus the new user
message. -/
theorem getConversationMessages_recent_window (db : List StoredMessage)
    (limit : Nat) (input : String) :
    getConversationMessages (.ok db) limit = (recentWindow db limit).map decodeStored ∧
    (recentWindow db limit).length = min limit db.length ∧
    finalSegOf (recentWindow db limit) db ∧
    (getConversationMessages (.ok db) limit).length ≤ limit ∧
    initialMessages (.ok db) input
      = getConversationMessages (.ok db) historyLimit ++ [.human input] := by
  refine ⟨rfl, ?_, ?_, ?_, rfl⟩
  · simp [recentWindow, queryRecentDesc]
  · exact ⟨(db.reverse.drop limit).reverse,
      by rw [recentWindow, queryRecentDesc, ← List.reverse_append,
             List.take_append_drop, List.reverse_reverse]⟩
  · simp [getConversationMessages, queryRecentDesc]

/-- C5: an input whose lower-cased form is `/exit`, `/help` or `/tools` is
handled by the shell itself — `processUserInput` returns the corresponding
command outcome and never invokes the agent graph (so nothing is appended
for that input). -/
theorem commands_short_circuit (db : Except DbError (List StoredMessage))
    (input : String)
    (h : jsToLower input = "/exit" ∨ jsToLower input = "/help" ∨
         jsToLower input = "/tools") :
    (processUserInput db input = .exit ∨
     processUserInput db input = .handledHelp ∨
     processUserInput db input = .handledTools) ∧
    ∀ msgs, processUserInput db input ≠ .ranAgent msgs := by
  rcases h with h | h | h <;> simp [processUserInput, h]

/-- C5 witness: the upper-cased `/Help` is recognized case-insensitively and
never reaches the agent. -/
theorem commands_short_circuit_witness :
    (jsToLower "/Help" = "/exit" ∨ jsToLower "/Help" = "/help" ∨
     jsToLower "/Help" = "/tools") ∧
    ((processUserInput (.ok []) "/Help" = .exit ∨
      processUserInput (.ok []) "/Help" = .handledHelp ∨
      processUserInput (.ok []) "/Help" = .handledTools) ∧
     ∀ msgs, processUserInput (.ok []) "/Help" ≠ .ranAgent msgs) :=
  ⟨by decide, commands_short_circuit (.ok []) "/Help" (by decide)⟩

/-- C8: a storage failure inside `getConversationMessages` is swallowed: the
call returns `[]`, exactly what an empty conversation returns, and the turn
proceeds with just the new user message as history. -/
theorem storage_failure_yields_empty (e : DbError) (limit : Nat)
    (input : String) :
    getConversationMessages (.error e) limit = [] ∧
    getConversationMessages (.error e) limit
      = getConversationMessages (.ok []) limit ∧
    initialMessages (.error e) input = [.human input] := by
  refine ⟨rfl, ?_, rfl⟩
  simp [getConversationMessages, queryRecentDesc]

/-- C9: every role `saveMessages` persists is one of the three enum values,
and any message that is neither an `AIMessage` nor a `ToolMessage` instance
— unknown subtypes included — falls back to role `USER`. -/
theorem saveMessages_role_enum (m : BaseMessage) (msgs : List BaseMessage) :
    (mapMessageRole m = .USER ∨ mapMessageRole m = .ASSISTANT ∨
     mapMessageRole m = .TOOL) ∧
    (isAI m = false → isTool m = false → mapMessageRole m = .USER) ∧
    (∀ d ∈ saveMessages msgs,
       d.role = .USER ∨ d.role = .ASSISTANT ∨ d.role = .TOOL) := by
  refine ⟨?_, ?_, ?_⟩
  · cases m <;> simp [mapMessageRole, isHuman, isAI, isTool]
  · cases m <;> simp [mapMessageRole, isHuman, isAI, isTool]
  · intro d hd
    simp only [saveMessages, List.mem_map] at hd
    obtain ⟨m2, _, rfl⟩ := hd
    cases m2 <;> simp [toMessageData, mapMessageRole, isHuman, isAI, isTool]

/-- C9 witness: an unknown message subtype (for example a `SystemMessage`)
is persisted with the `USER` fallback role. -/
theorem saveMessages_role_enum_witness :
    isAI (.other "system prompt") = false ∧
    isTool (.other "system prompt") = false ∧
    mapMessageRole (.other "system prompt") = .USER :=
  ⟨rfl, rfl, (saveMessages_role_enum (.other "system prompt") []).2.1 rfl rfl⟩

theorem getServerForTool_no_cache (servers : ServerMap) (t : String)
    (h : ∀ p ∈ servers, cachedHas p.2 t = false) :
    getServerForTool servers t = none := by
  induction servers with
  | nil => rfl
  | cons hd rest ih =>
    have hhd : cachedHas hd.2 t = false := h hd (by simp)
    obtain ⟨sname, server⟩ := hd
    simp only at hhd
    simp [getServerForTool, hhd]
    exact ih (fun p hp => h p (by simp [hp]))

theorem connectServer_no_cache (servers : ServerMap) (name cmd : String)
    (args : List String) (provides : List ToolDesc) (p : String × MCPServer)
    (hp : p ∈ connectServer servers name cmd args provides) :
    p ∈ servers ∨ p.2.tools = none := by
  simp only [connectServer] at hp
  by_cases hex : servers.any (fun q => q.1 = name) = true
  · rw [if_pos hex, List.mem_map] at hp
    obtain ⟨q, hq, rfl⟩ := hp
    by_cases hqn : q.1 = name
    · right
      rw [if_pos hqn]
    · rw [if_neg hqn]
      exact Or.inl hq
  · rw [if_neg hex, List.mem_append, List.mem_singleton] at hp
    rcases hp with hp | hp
    · exact Or.inl hp
    · right
      rw [hp]

/-- C10: `getServerForTool` routes only through cached tool lists — a `some`
answer names a stored server whose cache holds the tool; when no cache holds
it the answer is `none`; `connectServer` (JavaScript `Map.set`: replace in
place on an existing name, append otherwise) leaves the connected name with
an empty cache, wiping any cache a reconnected server had; so after any
connect, a tool no stored cache contained is still routed to `none` — even
though the connected server's live client lists it. -/
theorem getServerForTool_cached_only (servers : ServerMap) (t : String) :
    (∀ s, getServerForTool servers t = some s →
       ∃ server, (s, server) ∈ servers ∧ cachedHas server t = true) ∧
    ((∀ p ∈ servers, cachedHas p.2 t = false) →
       getServerForTool servers t = none) ∧
    (∀ name cmd args provides,
       ∀ p ∈ connectServer servers name cmd args provides,
         p.1 = name → p.2.tools = none) ∧
    (∀ name cmd args provides, (∀ p ∈ servers, cachedHas p.2 t = false) →
       getServerForTool (connectServer servers name cmd args provides) t
         = none) := by
  refine ⟨?_, getServerForTool_no_cache servers t, ?_, ?_⟩
  · induction servers with
    | nil => intro s hs; simp [getServerForTool] at hs
    | cons hd rest ih =>
      obtain ⟨sname, server⟩ := hd
      intro s hs
      by_cases hc : cachedHas server t
      · simp [getServerForTool, hc] at hs
        exact ⟨server, by simp [hs], hc⟩
      · simp [getServerForTool, hc] at hs
        obtain ⟨server2, hmem, hc2⟩ := ih s hs
        exact ⟨server2, by simp [hmem], hc2⟩
  · intro name cmd args provides p hp hpname
    simp only [connectServer] at hp
    by_cases hex : servers.any (fun q => q.1 = name) = true
    · rw [if_pos hex, List.mem_map] at hp
      obtain ⟨q, hq, rfl⟩ := hp
      by_cases hqn : q.1 = name
      · rw [if_pos hqn]
      · rw [if_neg hqn] at hpname
        exact absurd hpname hqn
    · rw [if_neg hex, List.mem_append, List.mem_singleton] at hp
      rcases hp with hp | hp
      · exact absurd (List.any_eq_true.mpr ⟨p, hp, by simp [hpname]⟩) hex
      · rw [hp]
  · intro name cmd args provides hall
    apply getServerForTool_no_cache
    intro p hp
    rcases connectServer_no_cache servers name cmd args provides p hp with
      hmem | hnone
    · exact hall p hmem
    · simp [cachedHas, hnone]

theorem runStores_head (gen : List Message → Except GenErr Outcome)
    (gw : CapCall → Except String String) (fuel : Nat)
    (history store : List Message) :
    (runStores gen gw fuel history store).head? = some store := by
  cases fuel with
  | zero => rfl
  | succ n =>
    cases hg : gen history with
    | error e => simp [runStores, hg]
    | ok o =>
      cases o with
      | finalAnswer t => simp [runStores, hg]
      | capabilityRequest calls => simp [runStores, hg]

theorem runStores_chain (gen : List Message → Except GenErr Outcome)
    (gw : CapCall → Except String String) :
    ∀ (fuel : Nat) (history store : List Message),
      List.Chain' initSegOf (runStores gen gw fuel history store) := by
  intro fuel
  induction fuel with
  | zero => intro history store; simp [runStores]
  | succ n ih =>
    intro history store
    cases hg : gen history with
    | error e => simp [runStores, hg]
    | ok o =>
      cases o with
      | finalAnswer t =>
        simp [runStores, hg]
        exact ⟨[.assistant t []], rfl⟩
      | capabilityRequest calls =>
        simp only [runStores, hg]
        rw [List.chain'_cons']
        refine ⟨?_, ?_⟩
        · intro y hy
          obtain rfl : store ++ [Message.assistant "" calls] = y := by
            simpa using hy
          exact initSegOf_app _ _
        · rw [List.chain'_cons']
          refine ⟨?_, ih _ _⟩
          intro y hy
          rw [runStores_head] at hy
          obtain rfl : store ++ [Message.assistant "" calls]
              ++ calls.map (execCall gw) = y := by
            simpa using hy
          exact initSegOf_app _ _

theorem runStores_grow (gen : List Message → Except GenErr Outcome)
    (gw : CapCall → Except String String) :
    ∀ (fuel : Nat) (history store s : List Message),
      s ∈ runStores gen gw fuel history store → initSegOf store s := by
  intro fuel
  induction fuel with
  | zero =>
    intro history store s hs
    obtain rfl : s = store := by simpa [runStores] using hs
    exact initSegOf_refl _
  | succ n ih =>
    intro history store s hs
    cases hg : gen history with
    | error e =>
      obtain rfl : s = store := by simpa [runStores, hg] using hs
      exact initSegOf_refl _
    | ok o =>
      cases o with
      | finalAnswer t =>
        simp [runStores, hg] at hs
        rcases hs with rfl | rfl
        · exact initSegOf_refl _
        · exact initSegOf_app _ _
      | capabilityRequest calls =>
        simp only [runStores, hg, List.mem_cons] at hs
        rcases hs with rfl | rfl | hs
        · exact initSegOf_refl _
        · exact initSegOf_app _ _
        · exact initSegOf_trans (initSegOf_trans (initSegOf_app _ _)
            (initSegOf_app _ _)) (ih _ _ _ hs)

theorem runTurn_ok_store (gen : List Message → Except GenErr Outcome)
    (gw : CapCall → Except String String) :
    ∀ (fuel : Nat) (history store msgs st : List Message) (n : Nat),
      runTurn gen gw fuel history store = some (.ok msgs, st, n) →
      st = store ++ msgs := by
  intro fuel
  induction fuel with
  | zero => intro history store msgs st n hr; simp [runTurn] at hr
  | succ k ih =>
    intro history store msgs st n hr
    cases hg : gen history with
    | error e => simp [runTurn, hg] at hr
    | ok o =>
      cases o with
      | finalAnswer t =>
        simp [runTurn, hg] at hr
        obtain ⟨rfl, rfl, _⟩ := hr
        rfl
      | capabilityRequest calls =>
        simp only [runTurn, hg] at hr
        cases hrec : runTurn gen gw k (history ++ stepMessages gw calls)
            (store ++ [.assistant "" calls] ++ calls.map (execCall gw)) with
        | none => rw [hrec] at hr; simp at hr
        | some res =>
          obtain ⟨r, st2, n2⟩ := res
          rw [hrec] at hr
          cases r with
          | error e => simp at hr
          | ok rest =>
            simp at hr
            obtain ⟨rfl, rfl, _⟩ := hr
            rw [ih _ _ _ _ _ hrec]
            simp [stepMessages, List.append_assoc]

theorem runTurn_store_grow (gen : List Message → Except GenErr Outcome)
    (gw : CapCall → Except String String) :
    ∀ (fuel : Nat) (history store : List Message)
      (res : Except GenErr (List Message)) (st : List Message) (n : Nat),
      runTurn gen gw fuel history store = some (res, st, n) →
      initSegOf store st := by
  intro fuel
  induction fuel with
  | zero => intro history store res st n hr; simp [runTurn] at hr
  | succ k ih =>
    intro history store res st n hr
    cases hg : gen history with
    | error e =>
      simp [runTurn, hg] at hr
      obtain ⟨_, rfl, _⟩ := hr
      exact initSegOf_refl _
    | ok o =>
      cases o with
      | finalAnswer t =>
        simp [runTurn, hg] at hr
        obtain ⟨_, rfl, _⟩ := hr
        exact initSegOf_app _ _
      | capabilityRequest calls =>
        simp only [runTurn, hg] at hr
        cases hrec : runTurn gen gw k (history ++ stepMessages gw calls)
            (store ++ [.assistant "" calls] ++ calls.map (execCall gw)) with
        | none => rw [hrec] at hr; simp at hr
        | some r2 =>
          obtain ⟨r, st2, n2⟩ := r2
          rw [hrec] at hr
          have hst2 : st = st2 := by
            cases r with
            | error e => simp at hr; exact hr.2.1.symm
            | ok rest => simp at hr; exact hr.2.1.symm
          subst hst2
          exact initSegOf_trans (initSegOf_trans (initSegOf_app _ _)
            (initSegOf_app _ _)) (ih _ _ _ _ _ hrec)

theorem runTurn_store_mem (gen : List Message → Except GenErr Outcome)
    (gw : CapCall → Except String String) :
    ∀ (fuel : Nat) (history store : List Message)
      (res : Except GenErr (List Message)) (st : List Message) (n : Nat),
      runTurn gen gw fuel history store = some (res, st, n) →
      st ∈ runStores gen gw fuel history store := by
  intro fuel
  induction fuel with
  | zero => intro history store res st n hr; simp [runTurn] at hr
  | succ k ih =>
    intro history store res st n hr
    cases hg : gen history with
    | error e =>
      simp [runTurn, hg] at hr
      simp [runStores, hg, hr.2.1.symm]
    | ok o =>
      cases o with
      | finalAnswer t =>
        simp [runTurn, hg] at hr
        simp [runStores, hg, hr.2.1.symm]
      | capabilityRequest calls =>
        simp only [runTurn, hg] at hr
        simp only [runStores, hg, List.mem_cons]
        cases hrec : runTurn gen gw k (history ++ stepMessages gw calls)
            (store ++ [.assistant "" calls] ++ calls.map (execCall gw)) with
        | none => rw [hrec] at hr; simp at hr
        | some r2 =>
          obtain ⟨r, st2, n2⟩ := r2
          rw [hrec] at hr
          have hst2 : st = st2 := by
            cases r with
            | error e => simp at hr; exact hr.2.1.symm
            | ok rest => simp at hr; exact hr.2.1.symm
          subst hst2
          exact Or.inr (Or.inr (ih _ _ _ _ _ hrec))

theorem runTurn_error_src (gen : List Message → Except GenErr Outcome)
    (gw : CapCall → Except String String) :
    ∀ (fuel : Nat) (history store : List Message) (e : GenErr)
      (st : List Message) (n : Nat),
      runTurn gen gw fuel history store = some (.error e, st, n) →
      ∃ h2, gen h2 = .error e := by
  intro fuel
  induction fuel with
  | zero => intro history store e st n hr; simp [runTurn] at hr
  | succ k ih =>
    intro history store e st n hr
    cases hg : gen history with
    | error e2 =>
      simp [runTurn, hg] at hr
      exact ⟨history, by rw [hg, hr.1]⟩
    | ok o =>
      cases o with
      | finalAnswer t => simp [runTurn, hg] at hr
      | capabilityRequest calls =>
        simp only [runTurn, hg] at hr
        cases hrec : runTurn gen gw k (history ++ stepMessages gw calls)
            (store ++ [.assistant "" calls] ++ calls.map (execCall gw)) with
        | none => rw [hrec] at hr; simp at hr
        | some r2 =>
          obtain ⟨r, st2, n2⟩ := r2
          rw [hrec] at hr
          cases r with
          | ok rest => simp at hr
          | error e2 =>
            simp at hr
            obtain ⟨rfl, _, _⟩ := hr
            exact ih _ _ _ _ _ hrec

/-- C10 witness: a filesystem server with `read_file` cached is routed to;
reconnecting it replaces the stored record in place and wipes the cache, so
the same lookup then yields `none`, although the live client still lists the
tool — routing consults only caches. -/
theorem getServerForTool_cached_only_witness :
    getServerForTool
      [("filesystem", ⟨"filesystem", "npx", ["-y"], true,
                       some [⟨"read_file"⟩], [⟨"read_file"⟩]⟩)]
      "read_file" = some "filesystem" ∧
    getServerForTool
      (connectServer
        [("filesystem", ⟨"filesystem", "npx", ["-y"], true,
                         some [⟨"read_file"⟩], [⟨"read_file"⟩]⟩)]
        "filesystem" "npx" ["-y"] [⟨"read_file"⟩])
      "read_file" = none :=
  ⟨by decide,
   (getServerForTool_cached_only
     (connectServer
       [("filesystem", ⟨"filesystem", "npx", ["-y"], true,
                        some [⟨"read_file"⟩], [⟨"read_file"⟩]⟩)]
       "filesystem" "npx" ["-y"] [⟨"read_file"⟩])
     "read_file").2.1 (by decide)⟩

/-- C1: when the generator answers `CapabilityRequest{calls}` with N calls,
the round appends exactly 1 + N messages — the assistant message carrying
the descriptors followed by one tool message per call, correlated by call id
in request order, none dropped — and these 1 + N messages come first in
`runTurn`'s output, before anything generated later. -/
theorem runTurn_capability_request_shape
    (gen : List Message → Except GenErr Outcome)
    (gw : CapCall → Except String String) (fuel : Nat)
    (history store : List Message) (calls : List CapCall)
    (h : gen history = .ok (.capabilityRequest calls)) :
    (stepMessages gw calls).length = 1 + calls.length ∧
    stepMessages gw calls = .assistant "" calls :: calls.map (execCall gw) ∧
    ((stepMessages gw calls).tail).map Message.callId?
      = calls.map (fun c => some c.id) ∧
    (∀ c ∈ calls, (execCall gw c).role = .TOOL) ∧
    (∀ msgs st n,
       runTurn gen gw (fuel + 1) history store = some (.ok msgs, st, n) →
       ∃ rest, msgs = stepMessages gw calls ++ rest) := by
  refine ⟨by simp [stepMessages, Nat.add_comm], rfl, ?_, ?_, ?_⟩
  · simp [stepMessages, List.map_map]
    intro a _
    rfl
  · intro c hc; rfl
  · intro msgs st n hr
    simp only [runTurn, h] at hr
    cases hrec : runTurn gen gw fuel (history ++ stepMessages gw calls)
        (store ++ [.assistant "" calls] ++ calls.map (execCall gw)) with
    | none => rw [hrec] at hr; simp at hr
    | some r2 =>
      obtain ⟨r, st2, n2⟩ := r2
      rw [hrec] at hr
      cases r with
      | error e => simp at hr
      | ok rest =>
        simp at hr
        exact ⟨rest, hr.1.symm⟩

/-- C1 witness: a one-call request round produces 2 messages which open the
turn's output, followed here by the closing final answer. -/
theorem runTurn_capability_request_shape_witness :
    (fun h2 : List Message =>
        if h2.length = 1 then
          (Except.ok (Outcome.capabilityRequest [⟨"i1", "list_files", "."⟩]) :
            Except GenErr Outcome)
        else Except.ok (Outcome.finalAnswer "done")) [Message.user "list files"]
      = Except.ok (Outcome.capabilityRequest [⟨"i1", "list_files", "."⟩]) ∧
    (stepMessages (fun _ => Except.ok "[a.txt]") [⟨"i1", "list_files", "."⟩]).length
      = 1 + 1 ∧
    ∃ rest,
      [Message.assistant "" [⟨"i1", "list_files", "."⟩],
       Message.tool "[a.txt]" "i1" "list_files", Message.assistant "done" []]
        = stepMessages (fun _ => Except.ok "[a.txt]") [⟨"i1", "list_files", "."⟩]
            ++ rest := by
  have T := runTurn_capability_request_shape
    (fun h2 : List Message =>
        if h2.length = 1 then
          (Except.ok (Outcome.capabilityRequest [⟨"i1", "list_files", "."⟩]) :
            Except GenErr Outcome)
        else Except.ok (Outcome.finalAnswer "done"))
    (fun _ => Except.ok "[a.txt]") 2 [Message.user "list files"] []
    [⟨"i1", "list_files", "."⟩] rfl
  exact ⟨rfl, T.1, T.2.2.2.2 _ _ _ rfl⟩

/-- C2: a failing gateway execution is encoded in the content of that call's
tool message — which still appears in the round's messages — while
`MCPService.callTool` itself only ever surfaces failures as errors (never a
success), and a completed turn reports an error only when the generator
itself failed, never because a tool call did. -/
theorem tool_failure_encoded_not_raised
    (gen : List Message → Except GenErr Outcome)
    (gw : CapCall → Except String String) (c : CapCall) (r : String)
    (h : gw c = .error r) :
    execCall gw c = .tool ("Tool execution failed: " ++ r) c.id c.name ∧
    (∀ calls, c ∈ calls → execCall gw c ∈ stepMessages gw calls) ∧
    (∀ servers sname tname,
       ∃ msg, callTool servers sname tname (.error r) = .error msg) ∧
    (∀ fuel history store e st n,
       runTurn gen gw fuel history store = some (.error e, st, n) →
       ∃ h2, gen h2 = .error e) := by
  refine ⟨?_, ?_, ?_, runTurn_error_src gen gw⟩
  · simp [execCall, h, encodeResult]
  · intro calls hc
    simp only [stepMessages, List.mem_cons]
    exact Or.inr (List.mem_map.mpr ⟨c, hc, rfl⟩)
  · intro servers sname tname
    simp only [callTool]
    cases hfind : servers.find? (fun p => p.1 = sname) with
    | none => exact ⟨_, rfl⟩
    | some p =>
      obtain ⟨nm, server⟩ := p
      by_cases hcon : server.connected
      · simp [hcon]
      · simp [hcon]

/-- C2 witness: a gateway error `ENOENT` becomes the failing tool message's
content, with the call id kept for correlation. -/
theorem tool_failure_encoded_not_raised_witness :
    (fun _ : CapCall => (Except.error "ENOENT" : Except String String))
        ⟨"i1", "read_file", "x"⟩ = Except.error "ENOENT" ∧
    execCall (fun _ => Except.error "ENOENT") ⟨"i1", "read_file", "x"⟩
      = .tool ("Tool execution failed: " ++ "ENOENT") "i1" "read_file" :=
  ⟨rfl,
   (tool_failure_encoded_not_raised (fun _ => Except.ok (.finalAnswer ""))
     (fun _ => Except.error "ENOENT") ⟨"i1", "read_file", "x"⟩ "ENOENT" rfl).1⟩

/-- C3: when the generator immediately returns `FinalAnswer{t}`, the turn
appends exactly one message — an assistant message with text `t` — persists
it, makes a single generation call (no tool round-trip) and the loop state
transition reaches `DONE`. -/
theorem runTurn_final_answer (gen : List Message → Except GenErr Outcome)
    (gw : CapCall → Except String String) (fuel : Nat)
    (history store : List Message) (t : String)
    (h : gen history = .ok (.finalAnswer t)) :
    runTurn gen gw (fuel + 1) history store
      = some (.ok [.assistant t []], store ++ [.assistant t []], 1) ∧
    (Message.assistant t []).role = .ASSISTANT ∧
    nextState .GENERATING (some (.finalAnswer t)) = .DONE := by
  refine ⟨?_, rfl, rfl⟩
  simp [runTurn, h]

/-- C3 witness: `FinalAnswer{"Hello!"}` on history `[user: "hi"]` yields one
assistant message and one generation call. -/
theorem runTurn_final_answer_witness :
    (fun _ : List Message =>
        (Except.ok (Outcome.finalAnswer "Hello!") : Except GenErr Outcome))
      [Message.user "hi"] = Except.ok (Outcome.finalAnswer "Hello!") ∧
    (runTurn (fun _ => Except.ok (Outcome.finalAnswer "Hello!"))
        (fun _ => Except.ok "") 1 [Message.user "hi"] []
      = some (.ok [.assistant "Hello!" []], [] ++ [.assistant "Hello!" []], 1) ∧
     (Message.assistant "Hello!" []).role = .ASSISTANT ∧
     nextState .GENERATING (some (.finalAnswer "Hello!")) = .DONE) :=
  ⟨rfl, runTurn_final_answer (fun _ => Except.ok (Outcome.finalAnswer "Hello!"))
    (fun _ => Except.ok "") 0 [Message.user "hi"] [] "Hello!" rfl⟩

theorem runStores_step_snapshots (gen : List Message → Except GenErr Outcome)
    (gw : CapCall → Except String String) (fuel : Nat)
    (history store : List Message) (calls : List CapCall)
    (hg : gen history = .ok (.capabilityRequest calls)) :
    [store, store ++ [.assistant "" calls],
     store ++ [.assistant "" calls] ++ calls.map (execCall gw)].Sublist
      (runStores gen gw (fuel + 1) history store) := by
  simp only [runStores, hg]
  refine List.Sublist.cons₂ _ (List.Sublist.cons₂ _ ?_)
  have hhead := runStores_head gen gw fuel (history ++ stepMessages gw calls)
    (store ++ [.assistant "" calls] ++ calls.map (execCall gw))
  cases hrs : runStores gen gw fuel (history ++ stepMessages gw calls)
      (store ++ [.assistant "" calls] ++ calls.map (execCall gw)) with
  | nil => rw [hrs] at hhead; simp at hhead
  | cons a l =>
    rw [hrs, List.head?_cons] at hhead
    obtain rfl := Option.some.inj hhead
    exact List.Sublist.cons₂ _ (List.nil_sublist l)

/-- C6: the persisted store grows by exactly each step's messages before the
next step begins: the store snapshots start at the pre-turn store, each
snapshot is an initial segment of the next, every snapshot extends the
pre-turn store, the step-1 assistant append of a capability round is its own
snapshot taken before the step-2 tool appends (persistence is never batched
across steps), the turn's final store is one of the snapshots, and a
completed turn's store is the pre-turn store followed by precisely the
produced messages — so a crash mid-turn leaves a durable prefix of the turn,
with no later message persisted before an earlier one. -/
theorem messages_persisted_per_step
    (gen : List Message → Except GenErr Outcome)
    (gw : CapCall → Except String String) (fuel : Nat)
    (history store : List Message) :
    (runStores gen gw fuel history store).head? = some store ∧
    List.Chain' initSegOf (runStores gen gw fuel history store) ∧
    (∀ s ∈ runStores gen gw fuel history store, initSegOf store s) ∧
    (∀ calls, gen history = .ok (.capabilityRequest calls) →
       [store, store ++ [.assistant "" calls],
        store ++ [.assistant "" calls] ++ calls.map (execCall gw)].Sublist
         (runStores gen gw (fuel + 1) history store)) ∧
    (∀ res st n, runTurn gen gw fuel history store = some (res, st, n) →
       st ∈ runStores gen gw fuel history store) ∧
    (∀ msgs st n, runTurn gen gw fuel history store = some (.ok msgs, st, n) →
       st = store ++ msgs) :=
  ⟨runStores_head gen gw fuel history store,
   runStores_chain gen gw fuel history store,
   fun s hs => runStores_grow gen gw fuel history store s hs,
   fun calls hg => runStores_step_snapshots gen gw fuel history store calls hg,
   fun res st n hr => runTurn_store_mem gen gw fuel history store res st n hr,
   fun msgs st n hr => runTurn_ok_store gen gw fuel history store msgs st n hr⟩

/-- C6 witness: a two-step turn persists exactly its produced messages on
top of the initially empty store, and the capability round contributes
three successive snapshots — pre-round, after the assistant append, after
the tool append. -/
theorem messages_persisted_per_step_witness :
    runTurn (fun h2 : List Message =>
        if h2.length ≤ 1 then
          (Except.ok (Outcome.capabilityRequest [⟨"i1", "list_files", "."⟩]) :
            Except GenErr Outcome)
        else Except.ok (Outcome.finalAnswer "done"))
      (fun _ => Except.ok "[a.txt]") 3 [Message.user "list files"] []
      = some (.ok [Message.assistant "" [⟨"i1", "list_files", "."⟩],
                   Message.tool "[a.txt]" "i1" "list_files",
                   Message.assistant "done" []],
              [Message.assistant "" [⟨"i1", "list_files", "."⟩],
               Message.tool "[a.txt]" "i1" "list_files",
               Message.assistant "done" []], 2) ∧
    [Message.assistant "" [⟨"i1", "list_files", "."⟩],
     Message.tool "[a.txt]" "i1" "list_files", Message.assistant "done" []]
      = [] ++ [Message.assistant "" [⟨"i1", "list_files", "."⟩],
               Message.tool "[a.txt]" "i1" "list_files",
               Message.assistant "done" []] ∧
    [([] : List Message),
     [Message.assistant "" [⟨"i1", "list_files", "."⟩]],
     [Message.assistant "" [⟨"i1", "list_files", "."⟩],
      Message.tool "[a.txt]" "i1" "list_files"]].Sublist
      (runStores (fun h2 : List Message =>
          if h2.length ≤ 1 then
            (Except.ok (Outcome.capabilityRequest [⟨"i1", "list_files", "."⟩]) :
              Except GenErr Outcome)
          else Except.ok (Outcome.finalAnswer "done"))
        (fun _ => Except.ok "[a.txt]") 3 [Message.user "list files"] []) :=
  ⟨rfl,
   (messages_persisted_per_step (fun h2 : List Message =>
        if h2.length ≤ 1 then
          (Except.ok (Outcome.capabilityRequest [⟨"i1", "list_files", "."⟩]) :
            Except GenErr Outcome)
        else Except.ok (Outcome.finalAnswer "done"))
      (fun _ => Except.ok "[a.txt]") 3 [Message.user "list files"]
      []).2.2.2.2.2 _ _ _ rfl,
   (messages_persisted_per_step (fun h2 : List Message =>
        if h2.length ≤ 1 then
          (Except.ok (Outcome.capabilityRequest [⟨"i1", "list_files", "."⟩]) :
            Except GenErr Outcome)
        else Except.ok (Outcome.finalAnswer "done"))
      (fun _ => Except.ok "[a.txt]") 2 [Message.user "list files"]
      []).2.2.2.1 [⟨"i1", "list_files", "."⟩] rfl⟩

/-- C7: a generator failure aborts the turn with that failure surfaced as
the turn's result, appending nothing at the failing step; and whenever a
turn ends in a surfaced error, the pre-turn store is still an initial
segment of the final store (earlier persisted steps intact) and the error
originated from a generator call. -/
theorem generator_failure_aborts_turn
    (gen : List Message → Except GenErr Outcome)
    (gw : CapCall → Except String String) (fuel : Nat)
    (history store : List Message) :
    (∀ e, gen history = .error e →
       runTurn gen gw (fuel + 1) history store = some (.error e, store, 1)) ∧
    (∀ e st n, runTurn gen gw fuel history store = some (.error e, st, n) →
       initSegOf store st ∧ ∃ h2, gen h2 = .error e) := by
  constructor
  · intro e he
    simp [runTurn, he]
  · intro e st n hr
    exact ⟨runTurn_store_grow gen gw fuel history store (.error e) st n hr,
           runTurn_error_src gen gw fuel history store e st n hr⟩

/-- C7 witness: an unreachable generator aborts the turn at once, leaving
the previously persisted message untouched. -/
theorem generator_failure_aborts_turn_witness :
    (fun _ : List Message =>
        (Except.error GenErr.unreachable : Except GenErr Outcome))
      [Message.user "hi"] = Except.error GenErr.unreachable ∧
    runTurn (fun _ => Except.error GenErr.unreachable) (fun _ => Except.ok "")
        1 [Message.user "hi"] [Message.user "old"]
      = some (.error .unreachable, [Message.user "old"], 1) :=
  ⟨rfl,
   (generator_failure_aborts_turn (fun _ => Except.error GenErr.unreachable)
     (fun _ => Except.ok "") 0 [Message.user "hi"] [Message.user "old"]).1
     .unreachable rfl⟩

end CCClone
